import Mathlib

/-!
Verification development for the documentation semantic index of the
tauri-rustdocs-candle repository (src-tauri/src).

The Rust sources are shallowly embedded:
* `f32` vectors are modelled as `List ℝ`,
* `HashMap` is modelled as an association list with replace-on-insert,
* fallible Rust functions returning `Result` are modelled with `Except String`,
* the candle model and the tokenizer inside `Embedder` are external
  collaborators and are carried as function fields of the `Embedder` structure.
-/

namespace RustDocs

/-! ## Association-list model of `std::collections::HashMap` -/

/-- Lookup by key, modelling `HashMap::get`. -/
def lookupA {α : Type} : List (String × α) → String → Option α
  | [], _ => none
  | (k2, v) :: rest, k => if k2 = k then some v else lookupA rest k

/-- Insert-or-replace, modelling `HashMap::insert` (the old binding for the
key, if any, is discarded). -/
def insertA {α : Type} (k : String) (v : α) (l : List (String × α)) :
    List (String × α) :=
  l.filter (fun p => p.1 ≠ k) ++ [(k, v)]

/-! ## rustdoc_processor.rs : data model -/

/-- Model of `rustdoc_processor::DocItem`. -/
structure DocItem where
  id : String
  crate_name : String
  name : String
  path : List String
  description : Option String
  item_type : String
  full_path_str : String
deriving Repr, DecidableEq

/-- Model of `rustdoc_processor::CrateDocs`; `items` is keyed by `full_path_str`. -/
structure CrateDocs where
  crate_name : String
  items : List (String × DocItem)
deriving Repr, DecidableEq

/-- One record of the `index` map of a decoded rustdoc JSON document
(`item_json` in `parse_rustdoc_json_file`): the fields the parser reads. -/
structure RawItem where
  name : Option String
  docs : Option String
  kind : Option String
  is_stripped : Option Bool
deriving Repr, DecidableEq

/-- A decoded rustdoc JSON document with its three required sections already
extracted (`index`, `paths` — each entry reduced to its `path` array — and
`root`).  JSON decoding itself is serde_json's job and is external. -/
structure RawCrate where
  index : List (String × RawItem)
  paths : List (String × List String)
  root : String
deriving Repr, DecidableEq

/-- The `full_path_parts` computation of `parse_rustdoc_json_file`
(rustdoc_processor.rs lines 217-232): start from `[crate_name] ++ path_array`
and push the item's own name unless the item is a module whose path already
ends in that name. -/
def full_path_parts (crate_name : String) (path_array : List String)
    (name : Option String) (kind : String) : List String :=
  let base := crate_name :: path_array
  match name with
  | some item_name_str =>
      if kind ≠ "module" ∨ ¬ (path_array.getLast? = some item_name_str) then
        base ++ [item_name_str]
      else
        base
  | none => base

/-- The body of the per-item loop of `parse_rustdoc_json_file`: fold one
`(item_id, item_json)` entry of `index` into the accumulated items map. -/
def parse_item_step (crate_name : String) (paths : List (String × List String))
    (m : List (String × DocItem)) (entry : String × RawItem) :
    List (String × DocItem) :=
  let item_id := entry.1
  let item_json := entry.2
  let kind := item_json.kind.getD "unknown"
  let path_array := (lookupA paths item_id).getD []
  let full_path_str :=
    String.intercalate "::" (full_path_parts crate_name path_array item_json.name kind)
  match item_json.name with
  | some item_name =>
      -- The `is_stripped` check in the source logs nothing and its `continue`
      -- is commented out, so stripped items are retained.
      insertA full_path_str
        ⟨item_id, crate_name, item_name, path_array, item_json.docs, kind,
          full_path_str⟩ m
  | none => m

/-- Model of `rustdoc_processor::parse_rustdoc_json_file`, applied to the decoded raw
tree (reading and JSON-decoding the file is external I/O). -/
def parse_rustdoc_json (raw : RawCrate) : Except String CrateDocs :=
  match lookupA raw.index raw.root with
  | none => Except.error "Root crate item not found in index"
  | some root_item =>
      let crate_name := root_item.name.getD "unknown_crate"
      let items_map := raw.index.foldl (parse_item_step crate_name raw.paths) []
      Except.ok ⟨crate_name, items_map⟩

/-! ## embedder.rs -/

/-- L2 normalization of the pooled hidden state (embedder.rs lines 143-144):
divide every component by the square root of the sum of squares.  (Over `ℝ`,
division by a zero norm yields `0` componentwise; candle would produce
non-finite floats there, which this real-valued model does not capture.) -/
noncomputable def l2_normalize (v : List ℝ) : List ℝ :=
  v.map (fun x => x / Real.sqrt ((v.map (fun y => y ^ 2)).sum))

/-- Model of `embedder::Embedder`.  The tokenizer and the Qwen2 model are opaque
external collaborators; they appear as the two function fields.
`tokenize` models `Tokenizer::encode` for one sentence (`encode_batch` applies
it to each sentence of the batch and fails as a whole if any sentence fails);
`forward` models running the model and extracting the CLS hidden state. -/
structure Embedder where
  tokenize : String → Except String (List Nat)
  forward : List Nat → Except String (List ℝ)

/-- The body of the per-encoding loop of `Embedder::embed_batch`
(embedder.rs lines 127-148): run the model on one encoding, pool the CLS
hidden state, L2-normalize it; a `?` failure aborts with the error. -/
noncomputable def Embedder.embed_step (e : Embedder) (encoding : List Nat) :
    Except String (List ℝ) := do
  let pooled ← e.forward encoding
  pure (l2_normalize pooled)

/-- Model of `Embedder::embed_batch` (embedder.rs lines 115-152): empty input short
circuits to `[]`; otherwise tokenize the whole batch (all-or-nothing), then
run `embed_step` over each encoding in order.  Any error aborts the whole
call. -/
noncomputable def Embedder.embed_batch (e : Embedder) (sentences : List String) :
    Except String (List (List ℝ)) :=
  if sentences.isEmpty then Except.ok [] else do
    let encodings ← sentences.mapM e.tokenize
    encodings.mapM e.embed_step

/-- Model of `Embedder::embed_sentence` (embedder.rs lines 154-158): a one-element
batch, erroring if the batch comes back empty. -/
noncomputable def Embedder.embed_sentence (e : Embedder) (sentence : String) :
    Except String (List ℝ) := do
  let embeddings_batch ← e.embed_batch [sentence]
  match embeddings_batch.head? with
  | some v => Except.ok v
  | none => Except.error "Embedding batch returned no results for a single sentence"

/-- Model of `embedder::init_global_embedder` (embedder.rs lines 164-183) as a state
transition on the `GLOBAL_EMBEDDER : Mutex<Option<Embedder>>` contents.
`ctor` is the outcome of the external `Embedder::new()` (model download and
load).  On failure the slot stays `none` and the error goes to the caller. -/
def init_global_embedder (ctor : Except String Embedder)
    (state : Option Embedder) : Option Embedder × Except String Unit :=
  match state with
  | some e => (some e, Except.ok ())
  | none =>
      match ctor with
      | Except.ok e => (some e, Except.ok ())
      | Except.error msg =>
          (none, Except.error ("Embedder::new() failed during global initial setup: " ++ msg))

/-! ## cosine similarity (commands.rs lines 111-117 and mcp_server.rs
lines 72-88 — the two copies are semantically identical) -/

/-- Sum of pairwise products, the `dot_product` of `cosine_similarity`. -/
def dot_product (v1 v2 : List ℝ) : ℝ :=
  (List.zipWith (fun a b => a * b) v1 v2).sum

/-- Sum of squares of the components (`x.powi(2)` summed). -/
def sum_squares (v : List ℝ) : ℝ :=
  (v.map (fun x => x ^ 2)).sum

/-- Model of `cosine_similarity`: `0` for empty or length-mismatched vectors, `0` when
either norm is zero, else the normalized dot product.  (`norm_v1`/`norm_v2`
of the source are written out inline.) -/
noncomputable def cosine_similarity (v1 v2 : List ℝ) : ℝ :=
  if v1.isEmpty ∨ v2.isEmpty ∨ v1.length ≠ v2.length then 0
  else if Real.sqrt (sum_squares v1) = 0 ∨ Real.sqrt (sum_squares v2) = 0 then 0
  else dot_product v1 v2 / (Real.sqrt (sum_squares v1) * Real.sqrt (sum_squares v2))

/-! ## mcp_server.rs : shared state -/

/-- Model of `mcp_server::ProjectData` (the `Arc`s are ownership plumbing). -/
structure ProjectData where
  crate_docs : CrateDocs
  embeddings : List (String × List ℝ)

/-- The `processed_projects` map of `mcp_server::AppState`. -/
abbrev Store : Type := List (String × ProjectData)

/-- Model of `get_processed_project_list` (commands.rs lines 172-179): the keys of the
projects map. -/
def get_processed_project_list (st : Store) : List String :=
  (st : List (String × ProjectData)).map Prod.fst

/-! ## ingestion (commands.rs lines 24-108, mcp_server.rs lines 147-199) -/

/-- The embedding text template of `invoke_process_rust_project`
(commands.rs line 55). -/
def command_embed_text (doc_item : DocItem) (desc : String) : String :=
  "Crate: " ++ doc_item.crate_name ++ ", Item: " ++ doc_item.name ++
    ", Type: " ++ doc_item.item_type ++ ", Docs: " ++ desc

/-- The embedding text template of the MCP `process_rust_project` tool
(mcp_server.rs line 171). -/
def mcp_embed_text (doc_item : DocItem) (desc : String) : String :=
  doc_item.crate_name ++ "::" ++ doc_item.name ++ " [DOCS]: " ++ desc

/-- Model of `desc.trim().is_empty()` of the selection loops: true iff every character
of the string is whitespace.  (`String::trim` strips exactly the leading and
trailing whitespace, so the trimmed string is empty iff the string has no
non-whitespace character.  Lean's own `String.trim` is defined by
well-founded recursion and does not reduce in the kernel, so the equivalent
character-level check is used.) -/
def trim_is_empty (s : String) : Bool :=
  s.data.all fun c => c.isWhitespace

/-- The selection loop both ingestion surfaces run over `crate_docs.items`:
keep items with a non-empty (after trim) description, pairing the item's map
key with the formatted text (`fmt` is the surface's template). -/
def embed_selection (fmt : DocItem → String → String)
    (items : List (String × DocItem)) : List (String × String) :=
  items.filterMap fun p =>
    match p.2.description with
    | some desc => if trim_is_empty desc then none else some (p.1, fmt p.2 desc)
    | none => none

/-- The embedding phase of ingestion: with no embedder, or an empty text
batch, or a failed `embed_batch`, the map stays empty (the failure is only
logged); on success zip the item keys with the returned vectors and insert
them into the per-project embeddings map. -/
noncomputable def build_project_embeddings (fmt : DocItem → String → String)
    (emb : Option Embedder) (crate_docs : CrateDocs) : List (String × List ℝ) :=
  match emb with
  | some e =>
      let selection := embed_selection fmt crate_docs.items
      let texts_to_embed := selection.map Prod.snd
      let item_paths_for_embedding := selection.map Prod.fst
      if texts_to_embed.isEmpty then [] else
        match e.embed_batch texts_to_embed with
        | Except.ok embeddings_vec =>
            (item_paths_for_embedding.zip embeddings_vec).foldl
              (fun m kv => insertA kv.1 kv.2 m) []
        | Except.error _ => []
  | none => []

/-- The tail of both ingestion surfaces once parsing succeeded: build the
embeddings, assemble `ProjectData`, insert it into the store, and report
success. -/
noncomputable def process_project_with_docs (fmt : DocItem → String → String)
    (emb : Option Embedder) (st : Store) (path : String)
    (crate_docs : CrateDocs) : Store × Except String String :=
  let project_embeddings := build_project_embeddings fmt emb crate_docs
  let project_data : ProjectData := ⟨crate_docs, project_embeddings⟩
  let st2 : Store := insertA path project_data st
  let num_embedded := (lookupA st2 path).elim 0 (fun pd => pd.embeddings.length)
  (st2,
    Except.ok ("Successfully processed project " ++ path ++ " and embedded " ++
      toString num_embedded ++ " items. Total processed projects: " ++
      toString (st2 : List (String × ProjectData)).length ++ "."))

/-- Model of `commands::invoke_process_rust_project`, from the outcome of
`parse_rustdoc_json_file` onwards (running `cargo rustdoc` and reading the
file are external; their failures error out before the store is touched). -/
noncomputable def invoke_process_rust_project (emb : Option Embedder)
    (st : Store) (path : String) (parse_result : Except String CrateDocs) :
    Store × Except String String :=
  match parse_result with
  | Except.error e =>
      (st, Except.error ("Failed to parse rustdoc JSON for " ++ path ++ ": " ++ e))
  | Except.ok crate_docs =>
      process_project_with_docs command_embed_text emb st path crate_docs

/-- The MCP `process_rust_project` tool handler, from the parse outcome
onwards; identical to the command surface except for the embedding text
template. -/
noncomputable def mcp_process_rust_project (emb : Option Embedder)
    (st : Store) (path : String) (parse_result : Except String CrateDocs) :
    Store × Except String String :=
  match parse_result with
  | Except.error e =>
      (st, Except.error ("Failed to parse rustdoc JSON for " ++ path ++ ": " ++ e))
  | Except.ok crate_docs =>
      process_project_with_docs mcp_embed_text emb st path crate_docs

/-! ## querying (commands.rs lines 119-170, mcp_server.rs lines 225-268) -/

/-- Model of `commands::QueryDocResultItem` (the MCP surface has a field-for-field
identical private copy). -/
structure QueryDocResultItem where
  project_path : String
  item_full_path : String
  item_type : String
  description_snippet : Option String
  score : ℝ

/-- The command surface's project filter:
`project_path.as_ref().map_or(true, |p| p == current_proj_path)`. -/
def filter_matches (pf : Option String) (pid : String) : Bool :=
  match pf with
  | none => true
  | some p => p == pid

/-- The scored-item collection loop of `invoke_query_documentation`
(commands.rs lines 146-163): for each project passing the filter, score every
embedded item and keep those whose `DocItem` is found in the items map.
The snippet is the description truncated to 300 characters. -/
noncomputable def gather_scored (st : Store) (pf : Option String)
    (query_embedding : List ℝ) : List QueryDocResultItem :=
  (st : List (String × ProjectData)).flatMap fun pr =>
    if filter_matches pf pr.1 then
      pr.2.embeddings.flatMap fun iv =>
        match lookupA pr.2.crate_docs.items iv.1 with
        | some doc_item =>
            [⟨pr.1, iv.1, doc_item.item_type,
              doc_item.description.map (fun d => d.take 300),
              cosine_similarity query_embedding iv.2⟩]
        | none => []
    else []

/-- Stable insertion of one element into a list sorted by descending
`score`: walk past strictly greater scores, insert before the first less-or-
equal one. -/
noncomputable def insert_by_score {α : Type} (score : α → ℝ) (x : α) :
    List α → List α
  | [] => [x]
  | y :: ys =>
      if score x < score y then y :: insert_by_score score x ys
      else x :: y :: ys

/-- Model of `sort_by(|a, b| b.score.partial_cmp(&a.score)...)`: the Rust stable sort
in descending score order, modelled as a stable insertion sort (a stable sort
for a total preorder comparator is unique, so this yields the same list as
Rust's stable mergesort; over `ℝ` the `partial_cmp` fallback never fires). -/
noncomputable def sort_by_score_desc {α : Type} (score : α → ℝ) (l : List α) :
    List α :=
  l.foldr (insert_by_score score) []

/-- Model of `commands::invoke_query_documentation`. -/
noncomputable def invoke_query_documentation (emb : Option Embedder)
    (st : Store) (query : String) (project_path : Option String)
    (num_results : Option Nat) : Except String (List QueryDocResultItem) :=
  let num_results_cap := num_results.getD 5
  match emb with
  | none => Except.error "Embedder not initialized"
  | some e =>
      match e.embed_sentence query with
      | Except.error msg => Except.error ("Failed to embed query: " ++ msg)
      | Except.ok query_embedding =>
          let all_scored_items := gather_scored st project_path query_embedding
          Except.ok
            ((sort_by_score_desc (fun r => r.score) all_scored_items).take
              num_results_cap)

/-- The scored-item collection loop of the MCP `query_documentation` tool
(mcp_server.rs lines 238-248): skips a project when a filter is present and
differs; the item lookup precedes scoring and keeps `(DocItem, score, project)`
triples. -/
noncomputable def mcp_gather_scored (st : Store) (pf : Option String)
    (query_embedding : List ℝ) : List (DocItem × ℝ × String) :=
  (st : List (String × ProjectData)).flatMap fun pr =>
    if pf.isSome ∧ pf ≠ some pr.1 then []
    else
      pr.2.embeddings.flatMap fun iv =>
        match lookupA pr.2.crate_docs.items iv.1 with
        | some doc_item => [(doc_item, cosine_similarity query_embedding iv.2, pr.1)]
        | none => []

/-- The MCP `query_documentation` tool handler: embed, gather, sort
descending, take `num_results` (default 5), then build the result records
(150-character snippet with a trailing ellipsis). -/
noncomputable def mcp_query_documentation (emb : Option Embedder) (st : Store)
    (natural_language_query : String) (project_path : Option String)
    (num_results : Option Nat) : Except String (List QueryDocResultItem) :=
  match emb with
  | none =>
      Except.error "Embedder not initialized. Cannot generate query embedding."
  | some e =>
      match e.embed_sentence natural_language_query with
      | Except.error msg => Except.error ("Failed to embed query: " ++ msg)
      | Except.ok query_embedding =>
          let scored_items := mcp_gather_scored st project_path query_embedding
          let sorted := sort_by_score_desc (fun t => t.2.1) scored_items
          let nres := num_results.getD 5
          Except.ok ((sorted.take nres).map fun t =>
            ⟨t.2.2, t.1.full_path_str, t.1.item_type,
              t.1.description.map (fun d => d.take 150 ++ "..."), t.2.1⟩)

/-! ## Lemmas about the cosine similarity -/

theorem sum_squares_nonneg (v : List ℝ) : 0 ≤ sum_squares v := by
  unfold sum_squares
  apply List.sum_nonneg
  intro x hx
  obtain ⟨y, _, rfl⟩ := List.mem_map.mp hx
  positivity

theorem sum_squares_cons (x : ℝ) (xs : List ℝ) :
    sum_squares (x :: xs) = x ^ 2 + sum_squares xs := by
  simp [sum_squares]

theorem dot_product_cons (x y : ℝ) (xs ys : List ℝ) :
    dot_product (x :: xs) (y :: ys) = x * y + dot_product xs ys := by
  simp [dot_product]

theorem dot_product_nil_right (v : List ℝ) : dot_product v [] = 0 := by
  cases v <;> simp [dot_product]

theorem dot_product_comm (v1 v2 : List ℝ) : dot_product v1 v2 = dot_product v2 v1 := by
  induction v1 generalizing v2 with
  | nil => cases v2 <;> simp [dot_product]
  | cons x xs ih =>
      cases v2 with
      | nil => simp [dot_product]
      | cons y ys => rw [dot_product_cons, dot_product_cons, mul_comm, ih ys]

/-- The inductive step of the Cauchy-Schwarz inequality for lists. -/
theorem cs_step (x y d A B : ℝ) (hd : d ^ 2 ≤ A * B) (hA : 0 ≤ A) (hB : 0 ≤ B) :
    (x * y + d) ^ 2 ≤ (x ^ 2 + A) * (y ^ 2 + B) := by
  rcases eq_or_lt_of_le hA with h | h
  · have hd0 : d = 0 := by nlinarith [sq_nonneg d]
    subst hd0
    nlinarith [mul_nonneg (sq_nonneg x) hB]
  · nlinarith [sq_nonneg (d * x - A * y), mul_nonneg (sq_nonneg x) (sub_nonneg.mpr hd),
      mul_nonneg hA (sub_nonneg.mpr hd)]

/-- Cauchy-Schwarz for the list dot product (no length hypothesis is needed:
`zipWith` truncates to the shorter list and squares only accumulate). -/
theorem dot_product_sq_le (v1 v2 : List ℝ) :
    dot_product v1 v2 ^ 2 ≤ sum_squares v1 * sum_squares v2 := by
  induction v1 generalizing v2 with
  | nil => simp [dot_product, sum_squares]
  | cons x xs ih =>
      cases v2 with
      | nil =>
          rw [dot_product_nil_right]
          simp [sum_squares]
      | cons y ys =>
          rw [dot_product_cons, sum_squares_cons, sum_squares_cons]
          exact cs_step x y _ _ _ (ih ys) (sum_squares_nonneg xs) (sum_squares_nonneg ys)

theorem abs_dot_product_le (v1 v2 : List ℝ) :
    |dot_product v1 v2| ≤ Real.sqrt (sum_squares v1) * Real.sqrt (sum_squares v2) := by
  calc |dot_product v1 v2| = Real.sqrt (dot_product v1 v2 ^ 2) :=
        (Real.sqrt_sq_eq_abs _).symm
    _ ≤ Real.sqrt (sum_squares v1 * sum_squares v2) :=
        Real.sqrt_le_sqrt (dot_product_sq_le v1 v2)
    _ = _ := Real.sqrt_mul (sum_squares_nonneg v1) _

theorem abs_cosine_le_one (v1 v2 : List ℝ) : |cosine_similarity v1 v2| ≤ 1 := by
  unfold cosine_similarity
  split_ifs with h1 h2
  · simp
  · simp
  · push_neg at h2
    have hpos1 : 0 < Real.sqrt (sum_squares v1) :=
      lt_of_le_of_ne (Real.sqrt_nonneg _) (Ne.symm h2.1)
    have hpos2 : 0 < Real.sqrt (sum_squares v2) :=
      lt_of_le_of_ne (Real.sqrt_nonneg _) (Ne.symm h2.2)
    rw [abs_div, abs_of_pos (mul_pos hpos1 hpos2)]
    exact (div_le_one (mul_pos hpos1 hpos2)).mpr (abs_dot_product_le v1 v2)

theorem cosine_similarity_comm (v1 v2 : List ℝ) :
    cosine_similarity v1 v2 = cosine_similarity v2 v1 := by
  unfold cosine_similarity
  by_cases h1 : v1.isEmpty ∨ v2.isEmpty ∨ v1.length ≠ v2.length
  · have h2 : v2.isEmpty ∨ v1.isEmpty ∨ v2.length ≠ v1.length := by
      rcases h1 with h | h | h
      exacts [Or.inr (Or.inl h), Or.inl h, Or.inr (Or.inr (Ne.symm h))]
    rw [if_pos h1, if_pos h2]
  · have h2 : ¬ (v2.isEmpty ∨ v1.isEmpty ∨ v2.length ≠ v1.length) := by
      intro hc
      apply h1
      rcases hc with h | h | h
      exacts [Or.inr (Or.inl h), Or.inl h, Or.inr (Or.inr (Ne.symm h))]
    rw [if_neg h1, if_neg h2]
    by_cases hn : Real.sqrt (sum_squares v1) = 0 ∨ Real.sqrt (sum_squares v2) = 0
    · rw [if_pos hn, if_pos hn.symm]
    · rw [if_neg hn, if_neg (fun hc => hn hc.symm)]
      rw [dot_product_comm, mul_comm]

/-! ## Claim C6 -/

/-- C6: `cosine_similarity` (the identical helpers in commands.rs and
mcp_server.rs) is symmetric, always lies in [-1, 1] (so in particular for
non-degenerate inputs), and returns exactly 0 — a plain value, never an error
or NaN in this real-valued model — whenever the vectors have mismatched
lengths, either vector is empty (covering zero length), or either vector has
zero norm. -/
theorem claim_cosine_similarity_spec (v1 v2 : List ℝ) :
    cosine_similarity v1 v2 = cosine_similarity v2 v1 ∧
    (-1 ≤ cosine_similarity v1 v2 ∧ cosine_similarity v1 v2 ≤ 1) ∧
    (v1.length ≠ v2.length → cosine_similarity v1 v2 = 0) ∧
    (v1 = [] ∨ v2 = [] → cosine_similarity v1 v2 = 0) ∧
    (Real.sqrt (sum_squares v1) = 0 ∨ Real.sqrt (sum_squares v2) = 0 →
      cosine_similarity v1 v2 = 0) := by
  refine ⟨cosine_similarity_comm v1 v2, abs_le.mp (abs_cosine_le_one v1 v2), ?_, ?_, ?_⟩
  · intro h
    unfold cosine_similarity
    rw [if_pos (Or.inr (Or.inr h))]
  · intro h
    unfold cosine_similarity
    rcases h with rfl | rfl
    · have hc : ([] : List ℝ).isEmpty = true ∨ v2.isEmpty = true ∨
          ([] : List ℝ).length ≠ v2.length := Or.inl rfl
      rw [if_pos hc]
    · have hc : v1.isEmpty = true ∨ ([] : List ℝ).isEmpty = true ∨
          v1.length ≠ ([] : List ℝ).length := Or.inr (Or.inl rfl)
      rw [if_pos hc]
  · intro h
    unfold cosine_similarity
    split_ifs with h1
    · rfl
    · rfl

/-- Witness for C6: concrete evaluations at mismatched lengths, an empty
vector, a zero-norm pair, and a non-degenerate pair. -/
theorem claim_cosine_similarity_spec_witness :
    cosine_similarity [1] [] = 0 ∧ cosine_similarity [] [1] = 0 ∧
    cosine_similarity [0] [0] = 0 ∧ -1 ≤ cosine_similarity [1] [1] :=
  ⟨(claim_cosine_similarity_spec [1] []).2.2.1 (by decide),
   (claim_cosine_similarity_spec [] [1]).2.2.2.1 (Or.inl rfl),
   (claim_cosine_similarity_spec [0] [0]).2.2.2.2 (Or.inl (by
      rw [show sum_squares [0] = 0 by norm_num [sum_squares]]
      exact Real.sqrt_zero)),
   (claim_cosine_similarity_spec [1] [1]).2.1.1⟩

/-! ## Lemmas about the schema normalizer -/

theorem full_path_parts_some (crate : String) (path_array : List String)
    (n kind : String) :
    full_path_parts crate path_array (some n) kind =
      crate :: path_array ++
        (if kind = "module" ∧ path_array.getLast? = some n then [] else [n]) := by
  have hdef : full_path_parts crate path_array (some n) kind =
      if kind ≠ "module" ∨ ¬ (path_array.getLast? = some n) then
        (crate :: path_array) ++ [n]
      else crate :: path_array := rfl
  rw [hdef]
  by_cases h : kind = "module" ∧ path_array.getLast? = some n
  · rw [if_neg (fun hc => Or.elim hc (fun hne => hne h.1) (fun hng => hng h.2)),
      if_pos h, List.append_nil]
  · rw [if_pos (not_and_or.mp h), if_neg h]

theorem mem_insertA {α : Type} (x : String × α) (k : String) (v : α)
    (l : List (String × α)) (h : x ∈ insertA k v l) : x = (k, v) ∨ x ∈ l := by
  unfold insertA at h
  rcases List.mem_append.mp h with h | h
  · exact Or.inr (List.mem_of_mem_filter h)
  · rw [List.mem_singleton] at h
    exact Or.inl h

/-- Invariant of the item-collection fold of `parse_rustdoc_json`: every
binding of the accumulated map is keyed by its item's `full_path_str`, and
that key follows the crate-name/module-path/name construction with the
module-deduplication exception. -/
theorem parse_items_invariant (crate : String) (paths : List (String × List String)) :
    ∀ (entries : List (String × RawItem)) (m : List (String × DocItem)),
      (∀ fp it, (fp, it) ∈ m → it.full_path_str = fp ∧ it.crate_name = crate ∧
          fp = String.intercalate "::" (it.crate_name :: it.path ++
            (if it.item_type = "module" ∧ it.path.getLast? = some it.name then []
              else [it.name]))) →
      ∀ fp it, (fp, it) ∈ entries.foldl (parse_item_step crate paths) m →
        it.full_path_str = fp ∧ it.crate_name = crate ∧
        fp = String.intercalate "::" (it.crate_name :: it.path ++
          (if it.item_type = "module" ∧ it.path.getLast? = some it.name then []
            else [it.name])) := by
  intro entries
  induction entries with
  | nil => intro m hm; simpa using hm
  | cons e rest ih =>
      intro m hm
      rw [List.foldl_cons]
      apply ih
      intro fp it hmem
      rcases e with ⟨item_id, item⟩
      cases hname : item.name with
      | none =>
          simp only [parse_item_step, hname] at hmem
          exact hm fp it hmem
      | some item_name =>
          simp only [parse_item_step, hname] at hmem
          rcases mem_insertA _ _ _ _ hmem with heq | hold
          · rw [Prod.mk.injEq] at heq
            obtain ⟨rfl, rfl⟩ := heq
            refine ⟨rfl, rfl, ?_⟩
            rw [full_path_parts_some]
          · exact hm fp it hold

/-! ## Claim C1 -/

/-- C1: for every item the parser retains (raw record with a non-null name),
the stored key is the item's `full_path_str`, the item carries the resolved
crate name, and the path is `crate_name :: module_path ++ [name]` joined with
"::" — except that a module whose module path already ends in its own name
does not get the name appended again. -/
theorem claim_full_path_construction (raw : RawCrate) (docs : CrateDocs)
    (hparse : parse_rustdoc_json raw = Except.ok docs) :
    ∀ fp it, (fp, it) ∈ docs.items →
      it.full_path_str = fp ∧ it.crate_name = docs.crate_name ∧
      fp = String.intercalate "::" (it.crate_name :: it.path ++
        (if it.item_type = "module" ∧ it.path.getLast? = some it.name then []
          else [it.name])) := by
  unfold parse_rustdoc_json at hparse
  cases hroot : lookupA raw.index raw.root with
  | none => rw [hroot] at hparse; exact absurd hparse (by simp)
  | some root_item =>
      rw [hroot] at hparse
      have hdocs : docs = ⟨root_item.name.getD "unknown_crate",
          raw.index.foldl
            (parse_item_step (root_item.name.getD "unknown_crate") raw.paths) []⟩ := by
        injection hparse with h
        exact h.symm
      subst hdocs
      intro fp it hmem
      have hinv := parse_items_invariant (root_item.name.getD "unknown_crate") raw.paths
        raw.index [] (by intro fp it h; simp at h) fp it hmem
      exact hinv

/-- The concrete raw tree for the C1 witness: crate `k` with a root module
(whose path already ends in its own name) and a function `c` at module path
`["a", "b"]`. -/
def c1_raw : RawCrate :=
  ⟨[("0", ⟨some "k", none, some "module", none⟩),
    ("1", ⟨some "c", some "docs", some "function", none⟩)],
   [("0", ["k"]), ("1", ["a", "b"])], "0"⟩

/-- The `DocItem` the parser produces for the function of `c1_raw`. -/
def c1_item_fn : DocItem :=
  ⟨"1", "k", "c", ["a", "b"], some "docs", "function", "k::a::b::c"⟩

/-- The `DocItem` the parser produces for the root module of `c1_raw`. -/
def c1_item_mod : DocItem :=
  ⟨"0", "k", "k", ["k"], none, "module", "k::k"⟩

/-- The parse result for `c1_raw`. -/
def c1_docs : CrateDocs :=
  ⟨"k", [("k::k", c1_item_mod), ("k::a::b::c", c1_item_fn)]⟩

/-- Witness for C1: on `c1_raw` the non-module item at module path
`["a", "b"]` with name `c` in crate `k` gets full path `k::a::b::c`, and the
module whose path already ends in `k` gets `k::k` (no duplicated segment). -/
theorem claim_full_path_construction_witness :
    (c1_item_fn.full_path_str = "k::a::b::c" ∧ c1_item_fn.crate_name = c1_docs.crate_name ∧
      "k::a::b::c" = String.intercalate "::" (c1_item_fn.crate_name :: c1_item_fn.path ++
        (if c1_item_fn.item_type = "module" ∧ c1_item_fn.path.getLast? = some c1_item_fn.name
          then [] else [c1_item_fn.name]))) ∧
    (c1_item_mod.full_path_str = "k::k" ∧ c1_item_mod.crate_name = c1_docs.crate_name ∧
      "k::k" = String.intercalate "::" (c1_item_mod.crate_name :: c1_item_mod.path ++
        (if c1_item_mod.item_type = "module" ∧ c1_item_mod.path.getLast? = some c1_item_mod.name
          then [] else [c1_item_mod.name]))) :=
  ⟨claim_full_path_construction c1_raw c1_docs rfl "k::a::b::c" c1_item_fn (by decide),
   claim_full_path_construction c1_raw c1_docs rfl "k::k" c1_item_mod (by decide)⟩

/-! ## Lemmas about `Except` and `mapM` -/

theorem except_bind_ok {α β : Type} (x : Except String α) (f : α → Except String β)
    (b : β) (h : x.bind f = Except.ok b) : ∃ a, x = Except.ok a ∧ f a = Except.ok b := by
  cases x with
  | error e => simp [Except.bind] at h
  | ok a => exact ⟨a, rfl, h⟩

theorem mapM_except_cons_ok {α β : Type} (f : α → Except String β) (a : α)
    (l : List α) (r : List β) (h : (a :: l).mapM f = Except.ok r) :
    ∃ b bs, f a = Except.ok b ∧ l.mapM f = Except.ok bs ∧ r = b :: bs := by
  rw [List.mapM_cons] at h
  obtain ⟨b, hb, h2⟩ := except_bind_ok _ _ _ h
  obtain ⟨bs, hbs, h3⟩ := except_bind_ok _ _ _ h2
  refine ⟨b, bs, hb, hbs, ?_⟩
  have h4 : Except.ok (ε := String) (b :: bs) = Except.ok r := h3
  injection h4 with h5
  exact h5.symm

theorem mapM_except_ok_length {α β : Type} (f : α → Except String β) :
    ∀ (l : List α) (r : List β), l.mapM f = Except.ok r → r.length = l.length := by
  intro l
  induction l with
  | nil =>
      intro r h
      rw [List.mapM_nil] at h
      have h2 : Except.ok (ε := String) ([] : List β) = Except.ok r := h
      injection h2 with h3
      rw [← h3]
      rfl
  | cons a l ih =>
      intro r h
      obtain ⟨b, bs, _, hbs, rfl⟩ := mapM_except_cons_ok f a l r h
      simp [ih bs hbs]

theorem mapM_except_ok_get {α β : Type} (f : α → Except String β) :
    ∀ (l : List α) (r : List β), l.mapM f = Except.ok r →
      ∀ (i : Nat) (hi : i < l.length) (hr : i < r.length),
        f (l.get ⟨i, hi⟩) = Except.ok (r.get ⟨i, hr⟩) := by
  intro l
  induction l with
  | nil => intro r h i hi; exact absurd hi (by simp)
  | cons a l ih =>
      intro r h i hi hr
      obtain ⟨b, bs, hb, hbs, rfl⟩ := mapM_except_cons_ok f a l r h
      cases i with
      | zero => exact hb
      | succ n => exact ih bs hbs n (Nat.lt_of_succ_lt_succ hi) (Nat.lt_of_succ_lt_succ hr)

/-! ## Claim C5 -/

/-- C5: `embed_batch` on the empty batch returns `[]` without error; a
successful call returns exactly one vector per input sentence (so never a
partial result — the return type admits only a full list or an error); and
the i-th output vector is the normalized model output for the i-th input
sentence, preserving order. -/
theorem claim_embed_batch_spec (e : Embedder) :
    e.embed_batch [] = Except.ok [] ∧
    (∀ sentences out, e.embed_batch sentences = Except.ok out →
      out.length = sentences.length) ∧
    (∀ sentences out, e.embed_batch sentences = Except.ok out →
      ∀ (i : Nat) (hi : i < sentences.length) (ho : i < out.length),
        ∃ encoding pooled,
          e.tokenize (sentences.get ⟨i, hi⟩) = Except.ok encoding ∧
          e.forward encoding = Except.ok pooled ∧
          out.get ⟨i, ho⟩ = l2_normalize pooled) := by
  refine ⟨rfl, ?_, ?_⟩
  · intro sentences out h
    cases sentences with
    | nil =>
        have h2 : Except.ok (ε := String) ([] : List (List ℝ)) = Except.ok out := h
        injection h2 with h3
        rw [← h3]
        rfl
    | cons s rest =>
        unfold Embedder.embed_batch at h
        rw [if_neg (by simp)] at h
        obtain ⟨encs, h1, h2⟩ := except_bind_ok _ _ _ h
        rw [mapM_except_ok_length e.embed_step encs out h2,
          mapM_except_ok_length e.tokenize (s :: rest) encs h1]
  · intro sentences out h i hi ho
    cases sentences with
    | nil => exact absurd hi (by simp)
    | cons s rest =>
        unfold Embedder.embed_batch at h
        rw [if_neg (by simp)] at h
        obtain ⟨encs, h1, h2⟩ := except_bind_ok _ _ _ h
        have hlen : i < encs.length := by
          rw [mapM_except_ok_length e.tokenize (s :: rest) encs h1]
          exact hi
        have htok := mapM_except_ok_get e.tokenize (s :: rest) encs h1 i hi hlen
        have hstep := mapM_except_ok_get e.embed_step encs out h2 i hlen ho
        obtain ⟨pooled, hfwd, hval⟩ := except_bind_ok _ _ _ hstep
        refine ⟨encs.get ⟨i, hlen⟩, pooled, htok, hfwd, ?_⟩
        have h4 : Except.ok (ε := String) (l2_normalize pooled) =
            Except.ok (out.get ⟨i, ho⟩) := hval
        injection h4 with h5
        exact h5.symm

/-- A stub embedder for witnesses: tokenizes everything to `[]` and returns
the fixed hidden state `[1]`. -/
def stub_embedder : Embedder :=
  ⟨fun _ => Except.ok [], fun _ => Except.ok [1]⟩

/-- Witness for C5: the stub embedder on the two-sentence batch
`["a", "b"]` succeeds with exactly two vectors, in input order. -/
theorem claim_embed_batch_spec_witness :
    stub_embedder.embed_batch [] = Except.ok [] ∧
    ([l2_normalize [1], l2_normalize [1]] : List (List ℝ)).length =
      (["a", "b"] : List String).length ∧
    (∃ encoding pooled,
      stub_embedder.tokenize ((["a", "b"] : List String).get ⟨0, by decide⟩) =
        Except.ok encoding ∧
      stub_embedder.forward encoding = Except.ok pooled ∧
      ([l2_normalize [1], l2_normalize [1]] : List (List ℝ)).get ⟨0, by decide⟩ =
        l2_normalize pooled) :=
  ⟨(claim_embed_batch_spec stub_embedder).1,
   (claim_embed_batch_spec stub_embedder).2.1 ["a", "b"] _ rfl,
   (claim_embed_batch_spec stub_embedder).2.2 ["a", "b"] _ rfl 0 (by decide) (by decide)⟩

/-! ## Lemmas about the descending sort -/

theorem mem_insert_by_score {α : Type} (score : α → ℝ) (x : α) :
    ∀ (l : List α) (z : α), z ∈ insert_by_score score x l → z = x ∨ z ∈ l := by
  intro l
  induction l with
  | nil =>
      intro z hz
      unfold insert_by_score at hz
      rw [List.mem_singleton] at hz
      exact Or.inl hz
  | cons y ys ih =>
      intro z hz
      unfold insert_by_score at hz
      by_cases hc : score x < score y
      · rw [if_pos hc] at hz
        rcases List.mem_cons.mp hz with rfl | hz2
        · exact Or.inr (by simp)
        · rcases ih z hz2 with h | h
          · exact Or.inl h
          · exact Or.inr (List.mem_cons_of_mem y h)
      · rw [if_neg hc] at hz
        rcases List.mem_cons.mp hz with rfl | hz2
        · exact Or.inl rfl
        · exact Or.inr hz2

theorem sorted_insert_by_score {α : Type} (score : α → ℝ) (x : α) :
    ∀ (l : List α), l.Pairwise (fun a b => score b ≤ score a) →
      (insert_by_score score x l).Pairwise (fun a b => score b ≤ score a) := by
  intro l
  induction l with
  | nil =>
      intro _
      unfold insert_by_score
      exact List.pairwise_singleton _ x
  | cons y ys ih =>
      intro hp
      have hy := (List.pairwise_cons.mp hp).1
      have hys := (List.pairwise_cons.mp hp).2
      unfold insert_by_score
      by_cases hc : score x < score y
      · rw [if_pos hc]
        apply List.pairwise_cons.mpr
        refine ⟨?_, ih hys⟩
        intro z hz
        rcases mem_insert_by_score score x ys z hz with rfl | hz2
        · exact le_of_lt hc
        · exact hy z hz2
      · rw [if_neg hc]
        apply List.pairwise_cons.mpr
        refine ⟨?_, hp⟩
        intro z hz
        rcases List.mem_cons.mp hz with rfl | hz2
        · exact le_of_not_lt hc
        · exact le_trans (hy z hz2) (le_of_not_lt hc)

theorem sorted_sort_by_score {α : Type} (score : α → ℝ) (l : List α) :
    (sort_by_score_desc score l).Pairwise (fun a b => score b ≤ score a) := by
  unfold sort_by_score_desc
  induction l with
  | nil => simp
  | cons a l ih =>
      rw [List.foldr_cons]
      exact sorted_insert_by_score score a _ ih

/-! ## Unfolding equations for the two query surfaces -/

theorem invoke_query_none (st : Store) (q : String) (pf : Option String)
    (nr : Option Nat) :
    invoke_query_documentation none st q pf nr =
      Except.error "Embedder not initialized" := rfl

theorem invoke_query_some (e : Embedder) (st : Store) (q : String)
    (pf : Option String) (nr : Option Nat) :
    invoke_query_documentation (some e) st q pf nr =
      match e.embed_sentence q with
      | Except.error msg => Except.error ("Failed to embed query: " ++ msg)
      | Except.ok qv =>
          Except.ok ((sort_by_score_desc (fun r => r.score)
            (gather_scored st pf qv)).take (nr.getD 5)) := rfl

theorem mcp_query_none (st : Store) (q : String) (pf : Option String)
    (nr : Option Nat) :
    mcp_query_documentation none st q pf nr =
      Except.error "Embedder not initialized. Cannot generate query embedding." := rfl

theorem mcp_query_some (e : Embedder) (st : Store) (q : String)
    (pf : Option String) (nr : Option Nat) :
    mcp_query_documentation (some e) st q pf nr =
      match e.embed_sentence q with
      | Except.error msg => Except.error ("Failed to embed query: " ++ msg)
      | Except.ok qv =>
          Except.ok (((sort_by_score_desc (fun t => t.2.1)
              (mcp_gather_scored st pf qv)).take (nr.getD 5)).map fun t =>
            (⟨t.2.2, t.1.full_path_str, t.1.item_type,
              t.1.description.map (fun d => d.take 150 ++ "..."),
              t.2.1⟩ : QueryDocResultItem)) := rfl

/-! ## Claim C2 -/

/-- C2: on both surfaces, every successful query returns results in
non-increasing score order, and never more than the requested number of
results (default 5 when the caller omits `num_results`). -/
theorem claim_query_sorted_truncated (emb : Option Embedder) (st : Store)
    (q : String) (pf : Option String) (nr : Option Nat)
    (res res2 : List QueryDocResultItem) :
    (invoke_query_documentation emb st q pf nr = Except.ok res →
      res.Pairwise (fun a b => b.score ≤ a.score) ∧ res.length ≤ nr.getD 5) ∧
    (mcp_query_documentation emb st q pf nr = Except.ok res2 →
      res2.Pairwise (fun a b => b.score ≤ a.score) ∧ res2.length ≤ nr.getD 5) := by
  constructor
  · intro h
    cases emb with
    | none => rw [invoke_query_none] at h; exact absurd h (by simp)
    | some e =>
        rw [invoke_query_some] at h
        cases hembed : e.embed_sentence q with
        | error msg => rw [hembed] at h; exact absurd h (by simp)
        | ok qv =>
            rw [hembed] at h
            simp only [Except.ok.injEq] at h
            rw [← h]
            exact ⟨List.Pairwise.sublist (List.take_sublist _ _)
                (sorted_sort_by_score _ _),
              List.length_take_le _ _⟩
  · intro h
    cases emb with
    | none => rw [mcp_query_none] at h; exact absurd h (by simp)
    | some e =>
        rw [mcp_query_some] at h
        cases hembed : e.embed_sentence q with
        | error msg => rw [hembed] at h; exact absurd h (by simp)
        | ok qv =>
            rw [hembed] at h
            simp only [Except.ok.injEq] at h
            rw [← h]
            constructor
            · apply List.pairwise_map.mpr
              exact List.Pairwise.sublist (List.take_sublist _ _)
                (sorted_sort_by_score _ _)
            · rw [List.length_map]
              exact List.length_take_le _ _

/-- Witness for C2: both surfaces succeed on the stub embedder over the
empty store with `num_results = 2`, returning sorted output within bound. -/
theorem claim_query_sorted_truncated_witness :
    (List.Pairwise (fun a b => b.score ≤ a.score) ([] : List QueryDocResultItem) ∧
      ([] : List QueryDocResultItem).length ≤ (some 2 : Option Nat).getD 5) ∧
    (List.Pairwise (fun a b => b.score ≤ a.score) ([] : List QueryDocResultItem) ∧
      ([] : List QueryDocResultItem).length ≤ (some 2 : Option Nat).getD 5) :=
  ⟨(claim_query_sorted_truncated (some stub_embedder) [] "q" none (some 2) [] []).1 rfl,
   (claim_query_sorted_truncated (some stub_embedder) [] "q" none (some 2) [] []).2 rfl⟩

/-! ## Lemmas about the store -/

theorem insertA_insertA {α : Type} (k : String) (v1 v2 : α) (l : List (String × α)) :
    insertA k v2 (insertA k v1 l) = insertA k v2 l := by
  unfold insertA
  rw [List.filter_append]
  simp [List.filter_filter]

theorem lookupA_insertA_self {α : Type} (k : String) (v : α) (l : List (String × α)) :
    lookupA (insertA k v l) k = some v := by
  unfold insertA
  induction l with
  | nil => simp [lookupA]
  | cons p rest ih =>
      obtain ⟨a, b⟩ := p
      rw [List.filter_cons]
      by_cases hp : a ≠ k
      · rw [if_pos (by simp [hp]), List.cons_append]
        show (if a = k then some b else lookupA (List.filter _ rest ++ [(k, v)]) k) = some v
        rw [if_neg hp, ih]
      · have hak : a = k := not_not.mp hp
        rw [if_neg (by simp [hak])]
        exact ih

/-- Unfolding equation: the store component of a successful ingestion is an
`insertA` of the assembled `ProjectData`. -/
theorem process_store_eq (fmt : DocItem → String → String) (emb : Option Embedder)
    (st : Store) (path : String) (docs : CrateDocs) :
    (process_project_with_docs fmt emb st path docs).1 =
      insertA path ⟨docs, build_project_embeddings fmt emb docs⟩ st := rfl

theorem invoke_process_ok_eq (emb : Option Embedder) (st : Store) (path : String)
    (docs : CrateDocs) :
    invoke_process_rust_project emb st path (Except.ok docs) =
      process_project_with_docs command_embed_text emb st path docs := rfl

theorem mcp_process_ok_eq (emb : Option Embedder) (st : Store) (path : String)
    (docs : CrateDocs) :
    mcp_process_rust_project emb st path (Except.ok docs) =
      process_project_with_docs mcp_embed_text emb st path docs := rfl

/-! ## Claim C3 -/

/-- C3: ingesting the same project identifier twice is last-write-wins — on
either surface, the store after the two ingestions is exactly the store after
the second ingestion alone, so `get` (lookup), `query`, and `list` all see
only the second catalog and its embeddings; nothing of the first index
remains. -/
theorem claim_upsert_last_write_wins (emb1 emb2 : Option Embedder) (st : Store)
    (path : String) (docs1 docs2 : CrateDocs) :
    ((invoke_process_rust_project emb2
        (invoke_process_rust_project emb1 st path (Except.ok docs1)).1
        path (Except.ok docs2)).1
      = (invoke_process_rust_project emb2 st path (Except.ok docs2)).1) ∧
    (lookupA (invoke_process_rust_project emb2
        (invoke_process_rust_project emb1 st path (Except.ok docs1)).1
        path (Except.ok docs2)).1 path
      = some ⟨docs2, build_project_embeddings command_embed_text emb2 docs2⟩) ∧
    (∀ pf qv, gather_scored (invoke_process_rust_project emb2
        (invoke_process_rust_project emb1 st path (Except.ok docs1)).1
        path (Except.ok docs2)).1 pf qv
      = gather_scored (invoke_process_rust_project emb2 st path (Except.ok docs2)).1 pf qv) ∧
    (get_processed_project_list (invoke_process_rust_project emb2
        (invoke_process_rust_project emb1 st path (Except.ok docs1)).1
        path (Except.ok docs2)).1
      = get_processed_project_list
          (invoke_process_rust_project emb2 st path (Except.ok docs2)).1) ∧
    ((mcp_process_rust_project emb2
        (mcp_process_rust_project emb1 st path (Except.ok docs1)).1
        path (Except.ok docs2)).1
      = (mcp_process_rust_project emb2 st path (Except.ok docs2)).1) ∧
    (lookupA (mcp_process_rust_project emb2
        (mcp_process_rust_project emb1 st path (Except.ok docs1)).1
        path (Except.ok docs2)).1 path
      = some ⟨docs2, build_project_embeddings mcp_embed_text emb2 docs2⟩) := by
  have hcmd : (invoke_process_rust_project emb2
      (invoke_process_rust_project emb1 st path (Except.ok docs1)).1
      path (Except.ok docs2)).1
      = (invoke_process_rust_project emb2 st path (Except.ok docs2)).1 := by
    rw [invoke_process_ok_eq, invoke_process_ok_eq, invoke_process_ok_eq,
      process_store_eq, process_store_eq, process_store_eq, insertA_insertA]
  have hmcp : (mcp_process_rust_project emb2
      (mcp_process_rust_project emb1 st path (Except.ok docs1)).1
      path (Except.ok docs2)).1
      = (mcp_process_rust_project emb2 st path (Except.ok docs2)).1 := by
    rw [mcp_process_ok_eq, mcp_process_ok_eq, mcp_process_ok_eq,
      process_store_eq, process_store_eq, process_store_eq, insertA_insertA]
  refine ⟨hcmd, ?_, ?_, ?_, hmcp, ?_⟩
  · rw [hcmd, invoke_process_ok_eq, process_store_eq, lookupA_insertA_self]
  · intro pf qv
    rw [hcmd]
  · rw [hcmd]
  · rw [hmcp, mcp_process_ok_eq, process_store_eq, lookupA_insertA_self]

/-! ## Lemmas about ingestion -/

theorem build_embeddings_none (fmt : DocItem → String → String) (docs : CrateDocs) :
    build_project_embeddings fmt none docs = [] := rfl

theorem build_embeddings_some_eq (fmt : DocItem → String → String) (e : Embedder)
    (docs : CrateDocs) :
    build_project_embeddings fmt (some e) docs =
      if ((embed_selection fmt docs.items).map Prod.snd).isEmpty then []
      else
        match e.embed_batch ((embed_selection fmt docs.items).map Prod.snd) with
        | Except.ok embeddings_vec =>
            (((embed_selection fmt docs.items).map Prod.fst).zip embeddings_vec).foldl
              (fun m kv => insertA kv.1 kv.2 m) []
        | Except.error _ => [] := rfl

/-- A failed `embed_batch` leaves the per-project embeddings map empty. -/
theorem build_embeddings_error (fmt : DocItem → String → String) (e : Embedder)
    (docs : CrateDocs) (msg : String)
    (h : e.embed_batch ((embed_selection fmt docs.items).map Prod.snd) =
      Except.error msg) :
    build_project_embeddings fmt (some e) docs = [] := by
  rw [build_embeddings_some_eq]
  by_cases hempty : ((embed_selection fmt docs.items).map Prod.snd).isEmpty
  · exfalso
    unfold Embedder.embed_batch at h
    rw [if_pos hempty] at h
    exact absurd h (by simp)
  · rw [if_neg hempty, h]

/-! ## Claim C4 -/

/-- C4: on both surfaces, when parsing succeeded but the embedding batch
fails, ingestion still succeeds — the Project Index is built with an empty
embeddings map (items intact) and inserted into the store, and the call
returns a success message, not an error. -/
theorem claim_embedding_failure_nonfatal (e : Embedder) (st : Store)
    (path : String) (docs : CrateDocs) (msg msg2 : String) :
    (e.embed_batch ((embed_selection command_embed_text docs.items).map Prod.snd)
        = Except.error msg →
      (invoke_process_rust_project (some e) st path (Except.ok docs)).1
          = insertA path ⟨docs, []⟩ st ∧
      (∃ m, (invoke_process_rust_project (some e) st path (Except.ok docs)).2
          = Except.ok m)) ∧
    (e.embed_batch ((embed_selection mcp_embed_text docs.items).map Prod.snd)
        = Except.error msg2 →
      (mcp_process_rust_project (some e) st path (Except.ok docs)).1
          = insertA path ⟨docs, []⟩ st ∧
      (∃ m, (mcp_process_rust_project (some e) st path (Except.ok docs)).2
          = Except.ok m)) := by
  constructor
  · intro h
    constructor
    · rw [invoke_process_ok_eq, process_store_eq,
        build_embeddings_error command_embed_text e docs msg h]
    · exact ⟨_, rfl⟩
  · intro h
    constructor
    · rw [mcp_process_ok_eq, process_store_eq,
        build_embeddings_error mcp_embed_text e docs msg2 h]
    · exact ⟨_, rfl⟩

/-- An embedder whose tokenizer always fails, for the C4 witness. -/
def failing_embedder : Embedder :=
  ⟨fun _ => Except.error "tokenizer failure", fun _ => Except.ok [1]⟩

/-- A one-item catalog with a non-empty description, for witnesses. -/
def c4_docs : CrateDocs :=
  ⟨"k", [("k::f", ⟨"1", "k", "f", [], some "a doc", "function", "k::f"⟩)]⟩

/-- Witness for C4: with the always-failing embedder, ingesting `c4_docs`
still inserts the catalog (with no embeddings) and reports success on both
surfaces. -/
theorem claim_embedding_failure_nonfatal_witness :
    ((invoke_process_rust_project (some failing_embedder) [] "p" (Except.ok c4_docs)).1
        = insertA "p" ⟨c4_docs, []⟩ [] ∧
      (∃ m, (invoke_process_rust_project (some failing_embedder) [] "p"
          (Except.ok c4_docs)).2 = Except.ok m)) ∧
    ((mcp_process_rust_project (some failing_embedder) [] "p" (Except.ok c4_docs)).1
        = insertA "p" ⟨c4_docs, []⟩ [] ∧
      (∃ m, (mcp_process_rust_project (some failing_embedder) [] "p"
          (Except.ok c4_docs)).2 = Except.ok m)) :=
  ⟨(claim_embedding_failure_nonfatal failing_embedder [] "p" c4_docs
      "tokenizer failure" "tokenizer failure").1 (by rfl),
   (claim_embedding_failure_nonfatal failing_embedder [] "p" c4_docs
      "tokenizer failure" "tokenizer failure").2 (by rfl)⟩

/-! ## Lemmas about the gather loops -/

theorem mem_insertA_strong {α : Type} (x : String × α) (k : String) (v : α)
    (l : List (String × α)) (h : x ∈ insertA k v l) :
    x = (k, v) ∨ (x ∈ l ∧ x.1 ≠ k) := by
  unfold insertA at h
  rcases List.mem_append.mp h with h | h
  · exact Or.inr ⟨List.mem_of_mem_filter h,
      of_decide_eq_true (List.mem_filter.mp h).2⟩
  · rw [List.mem_singleton] at h
    exact Or.inl h

/-- After inserting a project with an empty embeddings map, a query filtered
to exactly that project scores nothing (commands surface loop). -/
theorem gather_scored_insert_empty (st : Store) (path : String) (docs : CrateDocs)
    (qv : List ℝ) :
    gather_scored (insertA path ⟨docs, []⟩ st) (some path) qv = [] := by
  unfold gather_scored
  rw [List.flatMap_eq_nil_iff]
  intro pr hpr
  rcases mem_insertA_strong pr path ⟨docs, []⟩ st hpr with heq | ⟨_, hne⟩
  · rw [heq, if_pos (by simp [filter_matches])]
    rfl
  · have hcond : ¬ (filter_matches (some path) pr.1 = true) := by
      simp only [filter_matches, beq_iff_eq]
      exact fun he => hne he.symm
    rw [if_neg hcond]

/-- The MCP query loop scores nothing for such a project either. -/
theorem mcp_gather_scored_insert_empty (st : Store) (path : String)
    (docs : CrateDocs) (qv : List ℝ) :
    mcp_gather_scored (insertA path ⟨docs, []⟩ st) (some path) qv = [] := by
  unfold mcp_gather_scored
  rw [List.flatMap_eq_nil_iff]
  intro pr hpr
  rcases mem_insertA_strong pr path ⟨docs, []⟩ st hpr with heq | ⟨_, hne⟩
  · rw [heq, if_neg (fun hc => hc.2 rfl)]
    rfl
  · rw [if_pos ⟨rfl, fun he => hne (Option.some.inj he).symm⟩]

/-! ## Claim C10 -/

/-- C10: with the embedding provider never initialized, an ingestion whose
parse succeeded still succeeds on both surfaces: the Project Index is
inserted with an empty embeddings map, the project shows up in the project
list, contributes zero scored query candidates, and no embedding-unavailable
error is returned. -/
theorem claim_ingest_without_embedder (st : Store) (path : String)
    (docs : CrateDocs) :
    (invoke_process_rust_project none st path (Except.ok docs)).1
        = insertA path ⟨docs, []⟩ st ∧
    (∃ m, (invoke_process_rust_project none st path (Except.ok docs)).2
        = Except.ok m) ∧
    lookupA (invoke_process_rust_project none st path (Except.ok docs)).1 path
        = some ⟨docs, []⟩ ∧
    path ∈ get_processed_project_list
        (invoke_process_rust_project none st path (Except.ok docs)).1 ∧
    (∀ qv, gather_scored (invoke_process_rust_project none st path
        (Except.ok docs)).1 (some path) qv = []) ∧
    (∀ qv, mcp_gather_scored (invoke_process_rust_project none st path
        (Except.ok docs)).1 (some path) qv = []) ∧
    (mcp_process_rust_project none st path (Except.ok docs)).1
        = insertA path ⟨docs, []⟩ st ∧
    (∃ m, (mcp_process_rust_project none st path (Except.ok docs)).2
        = Except.ok m) := by
  have hst : (invoke_process_rust_project none st path (Except.ok docs)).1
      = insertA path ⟨docs, []⟩ st := by
    rw [invoke_process_ok_eq, process_store_eq, build_embeddings_none]
  have hmcp : (mcp_process_rust_project none st path (Except.ok docs)).1
      = insertA path ⟨docs, []⟩ st := by
    rw [mcp_process_ok_eq, process_store_eq, build_embeddings_none]
  refine ⟨hst, ⟨_, rfl⟩, ?_, ?_, ?_, ?_, hmcp, ⟨_, rfl⟩⟩
  · rw [hst, lookupA_insertA_self]
  · rw [hst]
    unfold get_processed_project_list insertA
    rw [List.map_append]
    exact List.mem_append.mpr (Or.inr (by simp))
  · intro qv
    rw [hst]
    exact gather_scored_insert_empty st path docs qv
  · intro qv
    rw [hst]
    exact mcp_gather_scored_insert_empty st path docs qv

/-- A filter naming a project absent from the store leaves the commands
gather loop empty. -/
theorem gather_scored_absent (st : Store) (f : String) (qv : List ℝ)
    (h : f ∉ get_processed_project_list st) :
    gather_scored st (some f) qv = [] := by
  unfold get_processed_project_list at h
  unfold gather_scored
  rw [List.flatMap_eq_nil_iff]
  intro pr hpr
  have hne : f ≠ pr.1 := by
    intro he
    apply h
    rw [he]
    exact List.mem_map.mpr ⟨pr, hpr, rfl⟩
  have hcond : ¬ (filter_matches (some f) pr.1 = true) := by
    simp only [filter_matches, beq_iff_eq]
    exact hne
  rw [if_neg hcond]

/-- Same for the MCP gather loop. -/
theorem mcp_gather_scored_absent (st : Store) (f : String) (qv : List ℝ)
    (h : f ∉ get_processed_project_list st) :
    mcp_gather_scored st (some f) qv = [] := by
  unfold get_processed_project_list at h
  unfold mcp_gather_scored
  rw [List.flatMap_eq_nil_iff]
  intro pr hpr
  have hne : f ≠ pr.1 := by
    intro he
    apply h
    rw [he]
    exact List.mem_map.mpr ⟨pr, hpr, rfl⟩
  rw [if_pos ⟨rfl, fun he => hne (Option.some.inj he)⟩]

/-! ## Claim C7 -/

/-- C7: a query whose filter names an identifier absent from the store
succeeds with the empty result list on both surfaces (given the query could
be embedded at all); and with no filter, every embedded item of every stored
project whose `DocItem` resolves is a scored candidate of the gather loop. -/
theorem claim_query_absent_filter :
    (∀ (e : Embedder) (st : Store) (q f : String) (nr : Option Nat) (qv : List ℝ),
      e.embed_sentence q = Except.ok qv →
      f ∉ get_processed_project_list st →
      invoke_query_documentation (some e) st q (some f) nr = Except.ok [] ∧
      mcp_query_documentation (some e) st q (some f) nr = Except.ok []) ∧
    (∀ (st : Store) (qv : List ℝ) (pid : String) (pd : ProjectData)
        (fp : String) (vec : List ℝ) (doc_item : DocItem),
      (pid, pd) ∈ st →
      (fp, vec) ∈ pd.embeddings →
      lookupA pd.crate_docs.items fp = some doc_item →
      (⟨pid, fp, doc_item.item_type,
        doc_item.description.map (fun d => d.take 300),
        cosine_similarity qv vec⟩ : QueryDocResultItem) ∈
        gather_scored st none qv) := by
  constructor
  · intro e st q f nr qv hembed habs
    constructor
    · rw [invoke_query_some, hembed]
      show Except.ok ((sort_by_score_desc (fun r => r.score)
          (gather_scored st (some f) qv)).take (nr.getD 5)) = Except.ok []
      rw [gather_scored_absent st f qv habs]
      simp [sort_by_score_desc]
    · rw [mcp_query_some, hembed]
      show Except.ok (((sort_by_score_desc (fun t => t.2.1)
          (mcp_gather_scored st (some f) qv)).take (nr.getD 5)).map fun t =>
            (⟨t.2.2, t.1.full_path_str, t.1.item_type,
              t.1.description.map (fun d => d.take 150 ++ "..."),
              t.2.1⟩ : QueryDocResultItem)) = Except.ok []
      rw [mcp_gather_scored_absent st f qv habs]
      simp [sort_by_score_desc]
  · intro st qv pid pd fp vec doc_item hmem hemb hlook
    unfold gather_scored
    apply List.mem_flatMap.mpr
    refine ⟨(pid, pd), hmem, ?_⟩
    rw [if_pos (show filter_matches none (pid, pd).1 = true from rfl)]
    apply List.mem_flatMap.mpr
    refine ⟨(fp, vec), hemb, ?_⟩
    have hlook2 : lookupA pd.crate_docs.items (fp, vec).1 = some doc_item := hlook
    rw [hlook2]
    exact List.mem_singleton.mpr rfl

/-- A stored project for the C7 witness: the one-item catalog with one
embedded vector. -/
def c7_pd : ProjectData := ⟨c4_docs, [("k::f", [0])]⟩

/-- Witness for C7: filtering on the never-ingested `p2` yields `ok []` on
both surfaces, and without a filter the embedded item of `p1` is a gathered
candidate. -/
theorem claim_query_absent_filter_witness :
    (invoke_query_documentation (some stub_embedder) [("p1", c7_pd)] "q"
        (some "p2") none = Except.ok [] ∧
      mcp_query_documentation (some stub_embedder) [("p1", c7_pd)] "q"
        (some "p2") none = Except.ok []) ∧
    (⟨"p1", "k::f", "function", some ("a doc".take 300),
      cosine_similarity (l2_normalize [1]) [0]⟩ : QueryDocResultItem) ∈
      gather_scored [("p1", c7_pd)] none (l2_normalize [1]) :=
  ⟨claim_query_absent_filter.1 stub_embedder [("p1", c7_pd)] "q" "p2" none
      (l2_normalize [1]) rfl (by decide),
   claim_query_absent_filter.2 [("p1", c7_pd)] (l2_normalize [1]) "p1" c7_pd
      "k::f" [0] ⟨"1", "k", "f", [], some "a doc", "function", "k::f"⟩
      (List.mem_singleton.mpr rfl) (List.mem_singleton.mpr rfl) rfl⟩

/-! ## Claim C8 (corrected) -/

/-- Counterexample for C8: after `init_global_embedder` is attempted and
fails, the global slot is `none` again, and a query reports the very same
"Embedder not initialized" error value as a query issued with initialization
never attempted — the two conditions are not distinguishable by callers,
contradicting the claim. -/
theorem claim_init_failure_cex :
    (init_global_embedder (Except.error "model files unavailable") none).1 = none ∧
    invoke_query_documentation
        ((init_global_embedder (Except.error "model files unavailable") none).1)
        [] "q" none none = Except.error "Embedder not initialized" ∧
    invoke_query_documentation none [] "q" none none
        = Except.error "Embedder not initialized" :=
  ⟨rfl, rfl, rfl⟩

/-- C8 amended: a failed initialization surfaces its error only to the
`init_global_embedder` caller; the global slot stays `none`, so every
subsequent operation behaves exactly as if initialization had never been
attempted (the same not-initialized error, on both surfaces). -/
theorem claim_init_failure_amended (msg : String) (st : Store) (q : String)
    (pf : Option String) (nr : Option Nat) :
    (init_global_embedder (Except.error msg) none).1 = none ∧
    (∃ m, (init_global_embedder (Except.error msg) none).2 = Except.error m) ∧
    invoke_query_documentation
        ((init_global_embedder (Except.error msg) none).1) st q pf nr
      = invoke_query_documentation none st q pf nr ∧
    mcp_query_documentation
        ((init_global_embedder (Except.error msg) none).1) st q pf nr
      = mcp_query_documentation none st q pf nr :=
  ⟨rfl, ⟨_, rfl⟩, rfl, rfl⟩

/-! ## Claim C9 (corrected) -/

/-- The item used to separate the two embedding templates. -/
def c9_item : DocItem :=
  ⟨"1", "k", "f", [], some "A test function", "function", "k::f"⟩

/-- Counterexample for C9: the two ingestion surfaces do not share one
template — on the same item and description the command surface and the MCP
surface produce different texts; moreover the MCP text ignores the item kind
entirely (two items differing only in kind embed identically). -/
theorem claim_embed_template_cex :
    command_embed_text c9_item "A test function"
        ≠ mcp_embed_text c9_item "A test function" ∧
    mcp_embed_text ⟨"1", "k", "f", [], some "A test function", "struct", "k::f"⟩
        "A test function"
      = mcp_embed_text c9_item "A test function" :=
  ⟨by decide, rfl⟩

theorem string_append_middle_cancel (x y t1 t2 : String)
    (h : x ++ t1 ++ y = x ++ t2 ++ y) : t1 = t2 := by
  have hdata := congrArg String.data h
  simp only [String.data_append] at hdata
  have h1 := List.append_cancel_left (List.append_cancel_right hdata)
  cases t1
  cases t2
  exact congrArg String.mk h1

/-- C9 amended: each ingestion surface applies its own fixed template to
every selected item.  The command surface template contains all four fields
and in particular determines the item kind (it is injective in the kind for
fixed other fields); the MCP template contains crate, name, and description
but drops the kind entirely; the two templates differ (see the
counterexample), so texts are stable per surface but not shared across
surfaces. -/
theorem claim_embed_template_amended :
    (∀ (id cn n : String) (p : List String) (desc : Option String)
        (fp d k1 k2 : String),
      mcp_embed_text ⟨id, cn, n, p, desc, k1, fp⟩ d
        = mcp_embed_text ⟨id, cn, n, p, desc, k2, fp⟩ d) ∧
    (∀ (id cn n : String) (p : List String) (desc : Option String)
        (fp d t1 t2 : String),
      command_embed_text ⟨id, cn, n, p, desc, t1, fp⟩ d
          = command_embed_text ⟨id, cn, n, p, desc, t2, fp⟩ d →
      t1 = t2) ∧
    (∀ (docs : CrateDocs) (fp : String) (it : DocItem) (d : String),
      (fp, it) ∈ docs.items → it.description = some d → trim_is_empty d = false →
      (fp, command_embed_text it d) ∈ embed_selection command_embed_text docs.items ∧
      (fp, mcp_embed_text it d) ∈ embed_selection mcp_embed_text docs.items) := by
  refine ⟨fun id cn n p desc fp d k1 k2 => rfl, ?_, ?_⟩
  · intro id cn n p desc fp d t1 t2 h
    have h2 : ("Crate: " ++ cn ++ ", Item: " ++ n ++ ", Type: ") ++ t1 ++
        (", Docs: " ++ d)
        = ("Crate: " ++ cn ++ ", Item: " ++ n ++ ", Type: ") ++ t2 ++
        (", Docs: " ++ d) := by
      unfold command_embed_text at h
      simp only [String.append_assoc] at h ⊢
      exact h
    exact string_append_middle_cancel _ _ t1 t2 h2
  · intro docs fp it d hmem hdesc htrim
    constructor
    · apply List.mem_filterMap.mpr
      refine ⟨(fp, it), hmem, ?_⟩
      show (match (fp, it).2.description with
        | some desc => if trim_is_empty desc then none
            else some ((fp, it).1, command_embed_text (fp, it).2 desc)
        | none => none) = some (fp, command_embed_text it d)
      rw [show (fp, it).2.description = some d from hdesc]
      simp [htrim]
    · apply List.mem_filterMap.mpr
      refine ⟨(fp, it), hmem, ?_⟩
      show (match (fp, it).2.description with
        | some desc => if trim_is_empty desc then none
            else some ((fp, it).1, mcp_embed_text (fp, it).2 desc)
        | none => none) = some (fp, mcp_embed_text it d)
      rw [show (fp, it).2.description = some d from hdesc]
      simp [htrim]

/-- Witness for C9 (amended): the injectivity and selection parts applied at
the concrete one-item catalog `c4_docs`. -/
theorem claim_embed_template_amended_witness :
    (mcp_embed_text ⟨"1", "k", "f", [], some "a doc", "struct", "k::f"⟩ "a doc"
      = mcp_embed_text ⟨"1", "k", "f", [], some "a doc", "function", "k::f"⟩ "a doc") ∧
    ("function" : String) = "function" ∧
    (("k::f", command_embed_text ⟨"1", "k", "f", [], some "a doc", "function", "k::f"⟩
        "a doc") ∈ embed_selection command_embed_text c4_docs.items ∧
      ("k::f", mcp_embed_text ⟨"1", "k", "f", [], some "a doc", "function", "k::f"⟩
        "a doc") ∈ embed_selection mcp_embed_text c4_docs.items) :=
  ⟨claim_embed_template_amended.1 "1" "k" "f" [] (some "a doc") "k::f" "a doc"
      "struct" "function",
   claim_embed_template_amended.2.1 "1" "k" "f" [] (some "a doc") "k::f" "a doc"
      "function" "function" rfl,
   claim_embed_template_amended.2.2 c4_docs "k::f"
      ⟨"1", "k", "f", [], some "a doc", "function", "k::f"⟩ "a doc"
      (by decide) rfl (by decide)⟩

end RustDocs
